import Mathlib

/-!
Shallow embedding of a validation / parser-combinator library.

JS-like values are modelled by an inductive type `Value`; JS numbers by `ℚ`
(the behaviour under study only exercises arithmetic that is exact in IEEE
doubles, so exact rationals agree with it); thrown exceptions by `Except`
with a `Failure` type distinguishing `ParserError` from any other throw;
and the ISO 8601 duration regular expression by an equivalent deterministic
matcher over `List Char` (the lookaheads make the regular expression
deterministic, see `parseElement`).
-/

namespace Validation

/-- A path segment: a string key, a numeric index, or a symbolic key
(carried as its description; its display form is `Symbol(<desc>)`). -/
inductive Segment where
  | str (s : String)
  | num (n : Int)
  | sym (d : String)
deriving DecidableEq

/-- `Path`: ordered list of segments locating a value within nested input. -/
abbrev Path := List Segment

/-- Failures: `parserError` models a thrown `ParserError` (path + message);
`other` models any other thrown exception. -/
inductive Failure where
  | parserError (path : Path) (message : String)
  | other (message : String)
deriving DecidableEq

/-- Display of one path segment at loop index `i` (the body of the
`for` loop in `formatPath`): a string segment is bare at index 0 and
dot-prefixed otherwise; numbers and symbols are wrapped in brackets. -/
def formatSegment (i : Nat) : Segment → String
  | .str t => if i = 0 then t else "." ++ t
  | .num n => "[" ++ toString n ++ "]"
  | .sym d => "[" ++ ("Symbol(" ++ d ++ ")") ++ "]"

/-- The `for` loop of `formatPath`, carrying the loop index. -/
def formatPathGo (i : Nat) : List Segment → String
  | [] => ""
  | s :: rest => formatSegment i s ++ formatPathGo (i + 1) rest

/-- `formatPath`: opening quote, loop over segments with index, closing quote. -/
def formatPath (path : Path) : String := "\"" ++ formatPathGo 0 path ++ "\""

/-- Display of a segment at a nonzero loop index: string segments are
always dot-prefixed, non-string segments bracketed. -/
def segmentDisplayTail : Segment → String
  | .str t => "." ++ t
  | .num n => "[" ++ toString n ++ "]"
  | .sym d => "[" ++ ("Symbol(" ++ d ++ ")") ++ "]"

/-- Rendering of all segments after the first one. -/
def tailRender : List Segment → String
  | [] => ""
  | s :: rest => segmentDisplayTail s ++ tailRender rest

/-- Path rendering following the claim's words instead of the source:
"the first *string* segment is emitted bare, every subsequent string
segment is prefixed with `.`" — i.e. bareness keyed on no string segment
having been emitted yet, rather than on loop index 0. -/
def claimedGo (seenStr : Bool) : List Segment → String
  | [] => ""
  | .str t :: rest => (if seenStr then "." ++ t else t) ++ claimedGo true rest
  | .num n :: rest => "[" ++ toString n ++ "]" ++ claimedGo seenStr rest
  | .sym d :: rest => "[" ++ ("Symbol(" ++ d ++ ")") ++ "]" ++ claimedGo seenStr rest

/-- The claim's rendering of a whole path. -/
def claimedFormatPath (path : Path) : String := "\"" ++ claimedGo false path ++ "\""

/-- JS-like values.  JS numbers are modelled by `ℚ`; `NaN` and the two
infinities are outside the model (no claim under study involves them). -/
inductive Value where
  | vNull
  | vUndefined
  | vBool (b : Bool)
  | vNum (q : ℚ)
  | vStr (s : String)
  | vArr (elems : List Value)
  | vObj (fields : List (String × Value))

/-- `Parser<I, O>`: `(input, path) => output`, with `throw` modelled by `Except`. -/
abbrev Parser (I : Type) (O : Type) := I → Path → Except Failure O

/-- The homogeneous parser type used by the combinators. -/
abbrev VParser := Parser Value Value

/-- `MessageSource<T>`: a fixed string or a message-generating function. -/
inductive MessageSource (I : Type) where
  | fixed (s : String)
  | dynamic (f : I → Path → String)

/-- `getErrorMessage`: `undefined` source gives no message, a string gives
itself, a function is applied to the input and path. -/
def getErrorMessage {I : Type} (src : Option (MessageSource I)) (input : I) (path : Path) :
    Option String :=
  match src with
  | none => none
  | some (.fixed s) => some s
  | some (.dynamic f) => some (f input path)

/-- `validate(input, parser)`: run the parser at the empty path inside
try/catch; `ParserError` gives `false`, success gives `true`, any other
throw is re-raised. -/
def validate {I O : Type} (input : I) (parser : Parser I O) : Except Failure Bool :=
  match parser input [] with
  | .ok _ => .ok true
  | .error (.parserError _ _) => .ok false
  | .error (.other m) => .error (.other m)

/-- The loop of `pipe`: feed the running value through each parser in order,
at the same path, stopping at the first failure. -/
def pipeGo : List VParser → Value → Path → Except Failure Value
  | [], value, _ => .ok value
  | p :: rest, value, path =>
    match p value path with
    | .ok v => pipeGo rest v path
    | .error e => .error e

/-- `pipe(...parsers)`. -/
def pipe (parsers : List VParser) : VParser := fun value path => pipeGo parsers value path

/-- Is this value JS `undefined`? -/
def isUndef : Value → Bool
  | .vUndefined => true
  | _ => false

/-- `Map.prototype.get` on an association list (`undefined` when absent). -/
def jsMapGet {I : Type} [BEq I] (table : List (I × Value)) (key : I) : Value :=
  match table.find? (fun e => e.1 == key) with
  | some e => e.2
  | none => .vUndefined

/-- `Map.prototype.has` on an association list. -/
def jsMapHas {I : Type} [BEq I] (table : List (I × Value)) (key : I) : Bool :=
  (table.find? (fun e => e.1 == key)).isSome

/-- `map(map, messageSource?)`: look the input up; fail only when the lookup
returned `undefined` *and* the key is not present. -/
def map {I : Type} [BEq I] (table : List (I × Value)) (src : Option (MessageSource I)) :
    Parser I Value :=
  fun input path =>
    let output := jsMapGet table input
    if isUndef output && !jsMapHas table input then
      .error (.parserError path
        ((getErrorMessage src input path).getD (formatPath path ++ " is an unknown value")))
    else
      .ok output

/-- JS `typeof`. -/
def jsTypeof : Value → String
  | .vNull => "object"
  | .vUndefined => "undefined"
  | .vBool _ => "boolean"
  | .vNum _ => "number"
  | .vStr _ => "string"
  | .vArr _ => "object"
  | .vObj _ => "object"

/-- Is this value JS `null`? -/
def isNullValue : Value → Bool
  | .vNull => true
  | _ => false

/-- `input[key]` for a string key (absent property gives `undefined`).
Integer-string indexing into arrays is not modelled (no claim uses it). -/
def getProp (v : Value) (key : String) : Value :=
  match v with
  | .vObj fields =>
    match fields.find? (fun f => f.1 == key) with
    | some f => f.2
    | none => .vUndefined
  | _ => .vUndefined

/-- `for (const key in input)`: own enumerable keys, in insertion order. -/
def ownKeys : Value → List String
  | .vObj fields => fields.map (fun f => f.1)
  | _ => []

/-- The first loop of `object` (`for (const key in parser)`): validate each
declared field at the extended path, building the output fields in shape
order, aborting at the first failure. -/
def runFields (shape : List (String × VParser)) (input : Value) (path : Path) :
    Except Failure (List (String × Value)) :=
  match shape with
  | [] => .ok []
  | (key, p) :: rest =>
    match p (getProp input key) (path ++ [.str key]) with
    | .error e => .error e
    | .ok v =>
      match runFields rest input path with
      | .error e => .error e
      | .ok vs => .ok ((key, v) :: vs)

/-- `object(parser, ignoreUnknown = false)`: reject `null` and non-objects,
validate the declared fields, then (unless `ignoreUnknown`) reject the first
own property that is not declared in the shape. -/
def object (shape : List (String × VParser)) (ignoreUnknown : Bool) : VParser :=
  fun input path =>
    if isNullValue input || jsTypeof input != "object" then
      .error (.parserError path (formatPath path ++ " must be an object"))
    else
      match runFields shape input path with
      | .error e => .error e
      | .ok outs =>
        if ignoreUnknown then .ok (.vObj outs)
        else
          match (ownKeys input).find? (fun key => !(shape.any (fun f => f.1 == key))) with
          | some key =>
            .error (.parserError (path ++ [.str key])
              (formatPath (path ++ [.str key]) ++ " is not supported"))
          | none => .ok (.vObj outs)

/-- `number()` (the no-bounds form, the only one the claims exercise;
`NaN` is outside the rational number model). -/
def number : VParser :=
  fun input path =>
    match input with
    | .vNum _ => .ok input
    | _ => .error (.parserError path (formatPath path ++ " must be a number"))

/-- JS template display of an integer-valued number (the only case the
claims exercise; non-integers get a marker display). -/
def jsNumDisplay (q : ℚ) : String :=
  if q.den = 1 then toString q.num else toString q.num ++ "/" ++ toString q.den

/-- `TEST_NUM` from the test file: a number input maps to the string
`test<n>`; anything else throws a `ParserError` with message `test`. -/
def TEST_NUM : VParser :=
  fun input path =>
    match input with
    | .vNum q => .ok (.vStr ("test" ++ jsNumDisplay q))
    | _ => .error (.parserError path "test")

/-- Maximal digit run at the head of a character list (how `\d*` / `\d+`
followed by a non-digit must match). -/
def takeDigits : List Char → List Char × List Char
  | [] => ([], [])
  | c :: cs =>
    if c.isDigit then
      (c :: (takeDigits cs).1, (takeDigits cs).2)
    else
      ([], c :: cs)

/-- One matched quantity: its integer digits and, for a decimal, the
fractional separator (`.` or `,`) together with the fractional digits. -/
structure Numeral where
  intPart : List Char
  frac : Option (Char × List Char)
deriving DecidableEq

/-- One optional element group `(?:(?<name>\d*[,.]\d+(?=cT?$)|\d+)c)?` of
`ISO_DURATION_REGEXP`, for designator `c`.

The decimal alternative requires its own designator, optionally `T`, and
then end of input (the lookahead); the integer alternative requires the
digits to be immediately followed by the designator.  Because a quantity is
always followed by its designator letter, no other backtracking choice of
the regular expression engine can succeed, so the group is a function of
the remaining input: it returns the captured quantity (if any) and the
rest of the input. -/
def parseElement (desig : Char) (s : List Char) : Option Numeral × List Char :=
  match (takeDigits s).2 with
  | [] => (none, s)
  | sep :: r2 =>
    if sep = ',' ∨ sep = '.' then
      match (takeDigits r2).2 with
      | [] => (none, s)
      | c :: rest =>
        if c = desig ∧ (takeDigits r2).1 ≠ [] ∧ (rest = [] ∨ rest = ['T']) then
          (some ⟨(takeDigits s).1, some (sep, (takeDigits r2).1)⟩, rest)
        else (none, s)
    else
      if sep = desig ∧ (takeDigits s).1 ≠ [] then (some ⟨(takeDigits s).1, none⟩, r2)
      else (none, s)

/-- A sequence of element groups, one per designator, in order. -/
def parseSeq : List Char → List Char → List (Option Numeral) × List Char
  | [], s => ([], s)
  | c :: cs, s =>
    ((parseElement c s).1 :: (parseSeq cs (parseElement c s).2).1,
      (parseSeq cs (parseElement c s).2).2)

/-- The named capture groups of a successful duration match:
`date = [years, months, weeks, days]`, `time = [hours, minutes, seconds]`. -/
structure DurationMatch where
  negative : Bool
  date : List (Option Numeral)
  time : List (Option Numeral)
deriving DecidableEq

def dateDesignators : List Char := ['Y', 'M', 'W', 'D']
def timeDesignators : List Char := ['H', 'M', 'S']

/-- The part of `ISO_DURATION_REGEXP` after `^(-)?P`: the four date element
groups, then the optional `(?:T <time element groups>)?`, then `$`. -/
def matchBody (negative : Bool) (s2 : List Char) : Option DurationMatch :=
  match (parseSeq dateDesignators s2).2 with
  | 'T' :: s7 =>
    if (parseSeq timeDesignators s7).2 = [] then
      some ⟨negative, (parseSeq dateDesignators s2).1, (parseSeq timeDesignators s7).1⟩
    else none
  | rest =>
    if rest = [] then some ⟨negative, (parseSeq dateDesignators s2).1, [none, none, none]⟩
    else none

/-- `ISO_DURATION_REGEXP.exec`: optional leading `-`, literal `P`, body. -/
def matchISODuration (s : List Char) : Option DurationMatch :=
  match s with
  | '-' :: 'P' :: s2 => matchBody true s2
  | 'P' :: s2 => matchBody false s2
  | _ => none

def MS_PER_SECOND : ℚ := 1000
def MS_PER_MINUTE : ℚ := 60 * MS_PER_SECOND
def MS_PER_HOUR : ℚ := 60 * MS_PER_MINUTE
def MS_PER_DAY : ℚ := 24 * MS_PER_HOUR
def MS_PER_WEEK : ℚ := 7 * MS_PER_DAY
def MS_PER_MONTH : ℚ := 30 * MS_PER_DAY
def MS_PER_YEAR : ℚ := 365 * MS_PER_DAY

/-- Numeric value of one digit character. -/
def digitVal (c : Char) : Nat := c.toNat - '0'.toNat

/-- Decimal value of a digit run. -/
def digitsToNat : List Char → Nat → Nat
  | [], acc => acc
  | c :: cs, acc => digitsToNat cs (10 * acc + digitVal c)

/-- `Number.parseFloat` on a matched quantity (the `,` → `.` normalization
makes the separator irrelevant to the value). -/
def numeralValue (n : Numeral) : ℚ :=
  (digitsToNat n.intPart 0 : ℚ) +
    (match n.frac with
     | none => 0
     | some (_, ds) => (digitsToNat ds 0 : ℚ) / (10 : ℚ) ^ ds.length)

/-- `parseElem` from the source: absent groups contribute `0`. -/
def parseElem (n : Option Numeral) : ℚ :=
  match n with
  | none => 0
  | some n => numeralValue n

/-- The seven unit factors, in capture-group order. -/
def msFactors : List ℚ :=
  [MS_PER_YEAR, MS_PER_MONTH, MS_PER_WEEK, MS_PER_DAY, MS_PER_HOUR, MS_PER_MINUTE, MS_PER_SECOND]

/-- The summation in `isoDuration`, with the sign applied to the whole sum. -/
def durationMs (g : DurationMatch) : ℚ :=
  (List.zipWith (fun n f => parseElem n * f) (g.date ++ g.time) msFactors).sum *
    (if g.negative then -1 else 1)

/-- `isoDuration()` applied to a string input: reject the four degenerate
forms, run the regular expression, convert. -/
def isoDuration (s : List Char) (path : Path) : Except Failure ℚ :=
  if s = "P".data ∨ s = "PT".data ∨ s = "-P".data ∨ s = "-PT".data then
    .error (.parserError path (formatPath path ++ " must be a valid ISO 8601 duration"))
  else
    match matchISODuration s with
    | none => .error (.parserError path (formatPath path ++ " must be a valid ISO 8601 duration"))
    | some g => .ok (durationMs g)

/-- The quantities actually present in a match, in positional order. -/
def presentNumerals (g : DurationMatch) : List Numeral :=
  (g.date ++ g.time).filterMap id

/-! ### Helper facts about digit evaluation -/

theorem digitVal_0 : digitVal '0' = 0 := rfl
theorem digitVal_1 : digitVal '1' = 1 := rfl
theorem digitVal_2 : digitVal '2' = 2 := rfl
theorem digitVal_3 : digitVal '3' = 3 := rfl
theorem digitVal_4 : digitVal '4' = 4 := rfl
theorem digitVal_5 : digitVal '5' = 5 := rfl
theorem digitVal_6 : digitVal '6' = 6 := rfl

/-! ### C1: the two concrete duration conversions -/

/-- C1: under the fixed unit factors, `isoDuration` maps
`"P3Y6M2W4DT12H30M5.2S"` to exactly `111760205200` milliseconds and
`"-P3Y"` to exactly `-94608000000` milliseconds (the leading `-` negates
the whole sum), at every path. -/
theorem C1_isoDuration_examples :
    (∀ path, isoDuration "P3Y6M2W4DT12H30M5.2S".data path = .ok 111760205200) ∧
    (∀ path, isoDuration "-P3Y".data path = .ok (-94608000000)) := by
  constructor <;> intro path
  · have hm : matchISODuration "P3Y6M2W4DT12H30M5.2S".data =
        some ⟨false,
          [some ⟨['3'], none⟩, some ⟨['6'], none⟩, some ⟨['2'], none⟩, some ⟨['4'], none⟩],
          [some ⟨['1', '2'], none⟩, some ⟨['3', '0'], none⟩,
            some ⟨['5'], some ('.', ['2'])⟩]⟩ := rfl
    simp only [isoDuration, hm]
    rw [if_neg (by decide)]
    congr 1
    norm_num [durationMs, msFactors, parseElem, numeralValue, digitsToNat,
      digitVal_0, digitVal_1, digitVal_2, digitVal_3, digitVal_4, digitVal_5, digitVal_6,
      MS_PER_YEAR, MS_PER_MONTH, MS_PER_WEEK, MS_PER_DAY, MS_PER_HOUR, MS_PER_MINUTE,
      MS_PER_SECOND]
  · have hm : matchISODuration "-P3Y".data =
        some ⟨true, [some ⟨['3'], none⟩, none, none, none], [none, none, none]⟩ := rfl
    simp only [isoDuration, hm]
    rw [if_neg (by decide)]
    congr 1
    norm_num [durationMs, msFactors, parseElem, numeralValue, digitsToNat, digitVal_3,
      MS_PER_YEAR, MS_PER_MONTH, MS_PER_WEEK, MS_PER_DAY, MS_PER_HOUR, MS_PER_MINUTE,
      MS_PER_SECOND]

/-! ### C9: the four degenerate forms -/

/-- C9: `isoDuration` rejects `"P"`, `"PT"`, `"-P"` and `"-PT"` with the
message `<formatted path> must be a valid ISO 8601 duration`; in particular
on `"PT"` at path `["test"]` the message is
`"test" must be a valid ISO 8601 duration`. -/
theorem C9_degenerate_forms :
    (∀ path, isoDuration "P".data path =
      .error (.parserError path (formatPath path ++ " must be a valid ISO 8601 duration"))) ∧
    (∀ path, isoDuration "PT".data path =
      .error (.parserError path (formatPath path ++ " must be a valid ISO 8601 duration"))) ∧
    (∀ path, isoDuration "-P".data path =
      .error (.parserError path (formatPath path ++ " must be a valid ISO 8601 duration"))) ∧
    (∀ path, isoDuration "-PT".data path =
      .error (.parserError path (formatPath path ++ " must be a valid ISO 8601 duration"))) ∧
    isoDuration "PT".data [Segment.str "test"] =
      .error (.parserError [Segment.str "test"] "\"test\" must be a valid ISO 8601 duration") :=
  ⟨fun _ => rfl, fun _ => rfl, fun _ => rfl, fun _ => rfl, rfl⟩

/-! ### C3: fractional date quantity followed by time quantities -/

/-- C3 counterexample: contrary to the claim, `isoDuration` does *not*
accept `"P3Y6M2W4.4DT12H"`; it rejects it (as the test suite asserts). -/
theorem C3_counterexample :
    isoDuration "P3Y6M2W4.4DT12H".data [Segment.str "test"] =
      .error (.parserError [Segment.str "test"]
        "\"test\" must be a valid ISO 8601 duration") := rfl

/-- C3 amended: a fractional date-half quantity may be followed only by the
bare `T` terminator, not by any time-half quantity: `"P3Y6M2W4.4DT12H"` is
rejected, while `"P3Y6M2W4.4DT"` is accepted and converts to `111749760000`. -/
theorem C3_amended :
    (∀ path, isoDuration "P3Y6M2W4.4DT12H".data path =
      .error (.parserError path (formatPath path ++ " must be a valid ISO 8601 duration"))) ∧
    (∀ path, isoDuration "P3Y6M2W4.4DT".data path = .ok 111749760000) := by
  refine ⟨fun _ => rfl, fun path => ?_⟩
  have hm : matchISODuration "P3Y6M2W4.4DT".data =
      some ⟨false,
        [some ⟨['3'], none⟩, some ⟨['6'], none⟩, some ⟨['2'], none⟩,
          some ⟨['4'], some ('.', ['4'])⟩],
        [none, none, none]⟩ := rfl
  simp only [isoDuration, hm]
  rw [if_neg (by decide)]
  congr 1
  norm_num [durationMs, msFactors, parseElem, numeralValue, digitsToNat,
    digitVal_2, digitVal_3, digitVal_4, digitVal_6,
    MS_PER_YEAR, MS_PER_MONTH, MS_PER_WEEK, MS_PER_DAY, MS_PER_HOUR, MS_PER_MINUTE,
    MS_PER_SECOND]

/-! ### C5: the boolean entry point -/

/-- C5: `validate(input, parser)` runs the parser at the empty path and
returns `true` iff it does not raise; it returns `false` exactly when the
parser raises a `ParserError`; every other raised failure propagates to the
caller unchanged. -/
theorem C5_validate_behaviour (I O : Type) (parser : Parser I O) (input : I) :
    (validate input parser = .ok true ↔ ∃ v, parser input [] = .ok v) ∧
    (validate input parser = .ok false ↔
      ∃ p m, parser input [] = .error (.parserError p m)) ∧
    (∀ m, validate input parser = .error (.other m) ↔
      parser input [] = .error (.other m)) := by
  cases h : parser input [] with
  | ok v => simp [validate, h]
  | error e => cases e <;> simp [validate, h]

/-! ### C6: sequential composition -/

/-- C6: `pipe()` is the identity validator, `pipe(f)` behaves exactly as
`f`, and a chain splits as the first part followed by the rest on its
output, at the same unextended path, the first failure aborting the chain
with its error unchanged. -/
theorem C6_pipe_behaviour :
    (∀ v path, pipe [] v path = .ok v) ∧
    (∀ f v path, pipe [f] v path = f v path) ∧
    (∀ ps qs v path, pipe (ps ++ qs) v path =
      (pipe ps v path).bind (fun v2 => pipe qs v2 path)) := by
  refine ⟨fun v path => rfl, fun f v path => ?_, fun ps qs v path => ?_⟩
  · show pipeGo [f] v path = f v path
    rcases h : f v path with v2 | e <;> simp [pipeGo, h]
  · show pipeGo (ps ++ qs) v path = (pipeGo ps v path).bind fun v2 => pipeGo qs v2 path
    induction ps generalizing v with
    | nil => simp [pipeGo, Except.bind]
    | cons p rest ih =>
      rcases h : p v path with v2 | e <;> simp [pipeGo, h, Except.bind, ih]

/-! ### C8: lookup-table validation -/

/-- C8: the `map` validator succeeds exactly when the input is a key
present in the table — including when the stored value is `undefined`, in
which case that value is returned — and otherwise fails with the resolved
custom message, or by default `<formatted path> is an unknown value`. -/
theorem C8_map_behaviour {I : Type} [BEq I] (table : List (I × Value))
    (src : Option (MessageSource I)) (input : I) (path : Path) :
    (jsMapHas table input = true → map table src input path = .ok (jsMapGet table input)) ∧
    (jsMapHas table input = false → map table src input path =
      .error (.parserError path
        ((getErrorMessage src input path).getD (formatPath path ++ " is an unknown value")))) := by
  constructor <;> intro h
  · simp [map, h]
  · have hg : jsMapGet table input = .vUndefined := by
      unfold jsMapHas at h
      rcases hf : table.find? (fun e => e.1 == input) with _ | e
      · unfold jsMapGet
        rw [hf]
      · rw [hf] at h
        simp at h
    simp [map, h, hg, isUndef]

/-- C8 witness: a table mapping `"none"` to `undefined`; lookup of `"none"`
succeeds and returns `undefined`. -/
theorem C8_map_witness :
    map [("foo", Value.vNum 42), ("none", Value.vUndefined)] none "none" [Segment.str "test"] =
      .ok Value.vUndefined := by
  have h := (C8_map_behaviour [("foo", Value.vNum 42), ("none", Value.vUndefined)]
    none "none" [Segment.str "test"]).1 (by rfl)
  exact h.trans (by rfl)

/-! ### C7: path formatting -/

/-- Helper: from loop index 1 onwards, the `formatPath` loop renders every
string segment dot-prefixed and every non-string segment bracketed. -/
theorem formatPathGo_succ (p : List Segment) : ∀ i, formatPathGo (i + 1) p = tailRender p := by
  induction p with
  | nil => intro i; rfl
  | cons s rest ih =>
    intro i
    cases s <;> simp [formatPathGo, tailRender, formatSegment, segmentDisplayTail, ih]

/-- C7 counterexample: on the path `[42, "foo"]` the source renders
`"[42].foo"` (the segment at index 0 is the integer, so the string segment
`foo` is dot-prefixed), while the claim's rendering — first *string*
segment bare — gives `"[42]foo"`. -/
theorem C7_counterexample :
    formatPath [Segment.num 42, Segment.str "foo"] = "\"[42].foo\"" ∧
    claimedFormatPath [Segment.num 42, Segment.str "foo"] = "\"[42]foo\"" ∧
    formatPath [Segment.num 42, Segment.str "foo"] ≠
      claimedFormatPath [Segment.num 42, Segment.str "foo"] := by
  refine ⟨rfl, rfl, ?_⟩
  decide

/-- C7 amended: `formatPath` renders a quoted string in which the segment
at loop index 0 is emitted bare when it is a string, every string segment
at a later index is prefixed with `.`, and every non-string segment is
wrapped in `[...]` (integers as digits, symbols via their display form);
the empty path renders as two double quotes. -/
theorem C7_formatPath_amended :
    formatPath [] = "\"\"" ∧
    (∀ t p, formatPath (Segment.str t :: p) = "\"" ++ (t ++ tailRender p) ++ "\"") ∧
    (∀ n p, formatPath (Segment.num n :: p) =
      "\"" ++ (("[" ++ toString n ++ "]") ++ tailRender p) ++ "\"") ∧
    (∀ d p, formatPath (Segment.sym d :: p) =
      "\"" ++ (("[" ++ ("Symbol(" ++ d ++ ")") ++ "]") ++ tailRender p) ++ "\"") := by
  refine ⟨rfl, fun t p => ?_, fun n p => ?_, fun d p => ?_⟩ <;>
    simp [formatPath, formatPathGo, formatSegment, formatPathGo_succ]

/-! ### C4: object-shape validation -/

/-- Helper: when every declared field validates, the field loop succeeds
and produces exactly the declared keys, in shape order. -/
theorem runFields_ok (shape : List (String × VParser)) (input : Value) (path : Path)
    (h : ∀ fp ∈ shape, ∃ v, fp.2 (getProp input fp.1) (path ++ [Segment.str fp.1]) = .ok v) :
    ∃ outs, runFields shape input path = .ok outs ∧
      outs.map Prod.fst = shape.map Prod.fst := by
  induction shape with
  | nil => exact ⟨[], rfl, rfl⟩
  | cons fp rest ih =>
    obtain ⟨key, p⟩ := fp
    obtain ⟨v, hv⟩ := h (key, p) (by simp)
    simp only at hv
    obtain ⟨outs, ho, hk⟩ := ih (fun q hq => h q (by simp [hq]))
    refine ⟨(key, v) :: outs, ?_, ?_⟩
    · simp only [runFields]
      rw [hv, ho]
    · simp [hk]

/-- C4: on an object input, when every declared field validates, the
validator with `ignoreUnknown = false` fails at the first own property not
declared in the shape, with the path extended by that name and the message
`<path.name> is not supported`; with `ignoreUnknown = true` undeclared
properties are dropped and the output has exactly the declared keys.  A
declared-field failure is reported even when undeclared properties exist
(the unknown-property scan runs only after the declared fields).  On
`{foo: 1, bar: 2, baz: 3}` with shape `{foo, bar}` at path `["test"]`, the
error is at path `test.baz` with message `"test.baz" is not supported`. -/
theorem C4_object_behaviour :
    (∀ shape fields path,
      (∀ fp ∈ shape,
        ∃ v, fp.2 (getProp (Value.vObj fields) fp.1) (path ++ [Segment.str fp.1]) = .ok v) →
      (∀ k, (ownKeys (Value.vObj fields)).find?
            (fun key => !(shape.any (fun f => f.1 == key))) = some k →
        object shape false (Value.vObj fields) path =
          .error (.parserError (path ++ [Segment.str k])
            (formatPath (path ++ [Segment.str k]) ++ " is not supported"))) ∧
      (∃ outs, runFields shape (Value.vObj fields) path = .ok outs ∧
        outs.map Prod.fst = shape.map Prod.fst ∧
        object shape true (Value.vObj fields) path = .ok (Value.vObj outs))) ∧
    (∀ shape fields path e, runFields shape (Value.vObj fields) path = .error e →
      object shape false (Value.vObj fields) path = .error e) ∧
    object [("foo", TEST_NUM), ("bar", number)] false
      (Value.vObj [("foo", .vNum 1), ("bar", .vNum 2), ("baz", .vNum 3)]) [Segment.str "test"] =
      .error (.parserError [Segment.str "test", Segment.str "baz"]
        "\"test.baz\" is not supported") := by
  refine ⟨fun shape fields path h => ?_, fun shape fields path e he => ?_, rfl⟩
  · obtain ⟨outs, ho, hk⟩ := runFields_ok shape (Value.vObj fields) path h
    constructor
    · intro k hfind
      simp only [object, isNullValue, jsTypeof]
      rw [ho, hfind]
      simp
    · refine ⟨outs, ho, hk, ?_⟩
      simp only [object, isNullValue, jsTypeof]
      rw [ho]
      simp
  · simp only [object, isNullValue, jsTypeof]
    rw [he]
    simp

/-- C4 witness: with `ignoreUnknown = true` the undeclared property `bar`
is dropped and the output carries exactly the declared field `foo`. -/
theorem C4_object_witness :
    object [("foo", TEST_NUM)] true (Value.vObj [("foo", .vNum 1), ("bar", .vNum 42)])
      [Segment.str "test"] = .ok (Value.vObj [("foo", Value.vStr "test1")]) := by
  obtain ⟨outs, ho, hk, hobj⟩ :=
    (C4_object_behaviour.1 [("foo", TEST_NUM)] [("foo", .vNum 1), ("bar", .vNum 42)]
      [Segment.str "test"]
      (fun fp hfp => by
        rw [List.mem_singleton.mp hfp]
        exact ⟨Value.vStr "test1", rfl⟩)).2
  have ho2 : runFields [("foo", TEST_NUM)]
      (Value.vObj [("foo", .vNum 1), ("bar", .vNum 42)]) [Segment.str "test"] =
      .ok [("foo", Value.vStr "test1")] := rfl
  have houts : outs = [("foo", Value.vStr "test1")] := by
    have := ho.symm.trans ho2
    exact Except.ok.inj this
  rw [houts] at hobj
  exact hobj

/-! ### Structural lemmas about the duration matcher -/

/-- `takeDigits` splits its input: taken digits followed by the rest. -/
theorem takeDigits_append_eq (s : List Char) : (takeDigits s).1 ++ (takeDigits s).2 = s := by
  induction s with
  | nil => rfl
  | cons c cs ih =>
    by_cases h : c.isDigit <;> simp [takeDigits, h, ih]

/-- Characters of the rest of `takeDigits` are characters of the input. -/
theorem mem_of_takeDigits_rest {x : Char} {s : List Char} (h : x ∈ (takeDigits s).2) : x ∈ s := by
  rw [← takeDigits_append_eq s]
  exact List.mem_append_right _ h

/-- An element group matches nothing on the empty rest. -/
theorem parseElement_nil (desig : Char) : parseElement desig [] = (none, []) := rfl

/-- An element group matches nothing on the rest `"T"` (there are no digits
to consume). -/
theorem parseElement_singleT (desig : Char) : parseElement desig ['T'] = (none, ['T']) := by
  have ht : takeDigits ['T'] = ([], ['T']) := rfl
  simp only [parseElement, ht]
  rw [if_neg (by decide), if_neg (fun hx => hx.2 rfl)]

/-- The rest left by an element group is made of characters of its input. -/
theorem parseElement_rest_mem (desig : Char) (s : List Char) {n : Option Numeral}
    {r : List Char} (h : parseElement desig s = (n, r)) : ∀ x ∈ r, x ∈ s := by
  unfold parseElement at h
  split at h
  · injection h with hn hr
    rw [← hr]
    exact fun x hx => hx
  next sep r2 heq =>
    have hr2 : ∀ x ∈ r2, x ∈ s := fun x hx =>
      mem_of_takeDigits_rest (by rw [heq]; exact List.mem_cons_of_mem _ hx)
    have hsub2 : ∀ x ∈ (takeDigits r2).2, x ∈ s := fun x hx => hr2 x (by
      rw [← takeDigits_append_eq r2]
      exact List.mem_append_right _ hx)
    split_ifs at h with hsep hint
    · split at h
      · injection h with hn hr
        rw [← hr]
        exact fun x hx => hx
      next c2 rest heq2 =>
        split_ifs at h with hcond
        · injection h with hn hr
          rw [← hr]
          exact fun x hx => hsub2 x (by rw [heq2]; exact List.mem_cons_of_mem _ hx)
        · injection h with hn hr
          rw [← hr]
          exact fun x hx => hx
    · injection h with hn hr
      rw [← hr]
      exact hr2
    · injection h with hn hr
      rw [← hr]
      exact fun x hx => hx

/-- A fractional quantity can only be matched when, after its designator,
the input ends immediately or ends after a single `T` (the lookahead). -/
theorem parseElement_frac_rest (desig : Char) (s : List Char) {n : Numeral} {r : List Char}
    (h : parseElement desig s = (some n, r)) (hf : n.frac.isSome) : r = [] ∨ r = ['T'] := by
  unfold parseElement at h
  split at h
  · simp at h
  next sep r2 heq =>
    split_ifs at h with hsep hint
    · split at h
      · simp at h
      next c2 rest heq2 =>
        split_ifs at h with hcond
        · injection h with hn hr
          rw [← hr]
          exact hcond.2.2
        · simp at h
    · injection h with hn hr
      rw [← Option.some.inj hn] at hf
      simp at hf
    · simp at h

/-- On a rest that is empty or the single `T`, a whole designator chain
matches nothing and consumes nothing. -/
theorem parseSeq_stuck (cs : List Char) (s : List Char) (hs : s = [] ∨ s = ['T']) :
    (∀ n ∈ (parseSeq cs s).1, n = none) ∧ (parseSeq cs s).2 = s := by
  induction cs with
  | nil => exact ⟨by simp [parseSeq], rfl⟩
  | cons c cs ih =>
    have he : parseElement c s = (none, s) := by
      rcases hs with rfl | rfl
      · rfl
      · exact parseElement_singleT c
    constructor
    · intro n hn
      simp only [parseSeq, he] at hn
      rcases List.mem_cons.mp hn with rfl | hmem
      · rfl
      · exact ih.1 n hmem
    · simp only [parseSeq, he]
      exact ih.2

/-- The rest left by a designator chain is made of characters of its input. -/
theorem parseSeq_rest_mem (cs : List Char) (s : List Char) :
    ∀ x ∈ (parseSeq cs s).2, x ∈ s := by
  induction cs generalizing s with
  | nil =>
    intro x hx
    simpa [parseSeq] using hx
  | cons c cs ih =>
    intro x hx
    simp only [parseSeq] at hx
    rcases hE : parseElement c s with ⟨n, r⟩
    rw [hE] at hx
    exact parseElement_rest_mem c s hE x (ih r x hx)

/-- In the quantities matched by a designator chain, only the positionally
last one can be fractional; and when some quantity is fractional, the chain
leaves either nothing or the single terminator `T`. -/
theorem parseSeq_lastFrac (cs : List Char) (s : List Char) :
    (∀ n ∈ ((parseSeq cs s).1.filterMap id).dropLast, n.frac = none) ∧
    ((∃ n ∈ (parseSeq cs s).1.filterMap id, n.frac.isSome) →
      (parseSeq cs s).2 = [] ∨ (parseSeq cs s).2 = ['T']) := by
  induction cs generalizing s with
  | nil =>
    refine ⟨by simp [parseSeq], ?_⟩
    rintro ⟨n, hn, -⟩
    simp [parseSeq] at hn
  | cons c cs ih =>
    rcases hE : parseElement c s with ⟨n0, r⟩
    have hseq1 : (parseSeq (c :: cs) s).1 = n0 :: (parseSeq cs r).1 := by
      simp only [parseSeq, hE]
    have hseq2 : (parseSeq (c :: cs) s).2 = (parseSeq cs r).2 := by
      simp only [parseSeq, hE]
    rcases n0 with _ | ν
    · rw [hseq1, hseq2]
      simp only [List.filterMap_cons, id]
      exact ih r
    · by_cases hf : ν.frac.isSome
      · have hr := parseElement_frac_rest c s hE hf
        have hstuck := parseSeq_stuck cs r hr
        have hnil : (parseSeq cs r).1.filterMap id = [] :=
          List.filterMap_eq_nil_iff.mpr hstuck.1
        rw [hseq1, hseq2]
        constructor
        · intro n hn
          simp [List.filterMap_cons, hnil] at hn
        · rintro -
          rw [hstuck.2]
          exact hr
      · have hfn : ν.frac = none := Option.not_isSome_iff_eq_none.mp hf
        rw [hseq1, hseq2]
        have hcons : ((some ν :: (parseSeq cs r).1).filterMap id) =
            ν :: (parseSeq cs r).1.filterMap id := by
          simp [List.filterMap_cons]
        rw [hcons]
        constructor
        · intro n hn
          rcases hl : (parseSeq cs r).1.filterMap id with _ | ⟨m, ms⟩
          · rw [hl] at hn
            simp at hn
          · rw [hl] at hn
            simp only [List.dropLast] at hn
            rcases List.mem_cons.mp hn with rfl | hmem
            · exact hfn
            · have := (ih r).1
              rw [hl] at this
              exact this n hmem
        · rintro ⟨n, hn, hnf⟩
          rcases List.mem_cons.mp hn with rfl | hmem
          · rw [hfn] at hnf
            simp at hnf
          · exact (ih r).2 ⟨n, hmem, hnf⟩

/-- In a successful match of the regular expression body, every present
quantity except the positionally last one is an integer. -/
theorem matchBody_lastFrac (neg : Bool) (s2 : List Char) (g : DurationMatch)
    (h : matchBody neg s2 = some g) :
    ∀ n ∈ (presentNumerals g).dropLast, n.frac = none := by
  have hd := parseSeq_lastFrac dateDesignators s2
  unfold matchBody at h
  split at h
  next s7 heq =>
    split_ifs at h with ht
    · have hg := (Option.some.inj h).symm
      subst hg
      have htm := parseSeq_lastFrac timeDesignators s7
      rcases hft : (parseSeq timeDesignators s7).1.filterMap id with _ | ⟨m, ms⟩
      · intro n hn
        simp only [presentNumerals, List.filterMap_append, hft, List.append_nil] at hn
        exact hd.1 n hn
      · have hdnone : ∀ n ∈ (parseSeq dateDesignators s2).1.filterMap id, n.frac = none := by
          intro n hn
          by_contra hfr
          have hfs : n.frac.isSome := Option.ne_none_iff_isSome.mp hfr
          rcases hd.2 ⟨n, hn, hfs⟩ with h0 | h1
          · rw [heq] at h0
            cases h0
          · rw [heq] at h1
            have hs7 : s7 = [] := by
              injection h1
            have hstuck := parseSeq_stuck timeDesignators s7 (Or.inl hs7)
            have hnil : (parseSeq timeDesignators s7).1.filterMap id = [] :=
              List.filterMap_eq_nil_iff.mpr hstuck.1
            rw [hft] at hnil
            cases hnil
        intro n hn
        simp only [presentNumerals, List.filterMap_append, hft] at hn
        rw [List.dropLast_append_of_ne_nil _ (List.cons_ne_nil m ms)] at hn
        rcases List.mem_append.mp hn with hmem | hmem
        · exact hdnone n hmem
        · have := htm.1
          rw [hft] at this
          exact this n hmem
  next heq =>
    split_ifs at h with hnil
    · have hg := (Option.some.inj h).symm
      subst hg
      intro n hn
      simp only [presentNumerals, List.filterMap_append] at hn
      have hconst : ([none, none, none] : List (Option Numeral)).filterMap id = [] := rfl
      rw [hconst, List.append_nil] at hn
      exact hd.1 n hn

/-! ### C2: at most one fractional quantity, positionally last -/

/-- C2: in every string accepted by the duration regular expression, every
present quantity except the positionally last one is an integer (so at most
one quantity is fractional and it is last); and the two claimed rejection
examples `"P2.4Y3M"` and `"P3Y6M2W4DT12H30.4M5S"` fail with the message
`<formatted path> must be a valid ISO 8601 duration`. -/
theorem C2_fraction_positionally_last :
    (∀ s g, matchISODuration s = some g →
      ∀ n ∈ (presentNumerals g).dropLast, n.frac = none) ∧
    (∀ path, isoDuration "P2.4Y3M".data path =
      .error (.parserError path (formatPath path ++ " must be a valid ISO 8601 duration"))) ∧
    (∀ path, isoDuration "P3Y6M2W4DT12H30.4M5S".data path =
      .error (.parserError path (formatPath path ++ " must be a valid ISO 8601 duration"))) := by
  refine ⟨?_, fun path => rfl, fun path => rfl⟩
  intro s g hm
  unfold matchISODuration at hm
  split at hm
  · exact matchBody_lastFrac true _ g hm
  · exact matchBody_lastFrac false _ g hm
  · cases hm

/-- C2 witness: in the accepted string `"P3Y6.5M"` the only non-last
present quantity is the integer `3` (years). -/
theorem C2_fraction_positionally_last_witness : Numeral.frac ⟨['3'], none⟩ = none := by
  have hm : matchISODuration "P3Y6.5M".data =
      some ⟨false,
        [some ⟨['3'], none⟩, some ⟨['6'], some ('.', ['5'])⟩, none, none],
        [none, none, none]⟩ := rfl
  have h := C2_fraction_positionally_last.1 "P3Y6.5M".data _ hm
  exact h ⟨['3'], none⟩ (by decide)

/-! ### C10: trailing `T` with no time quantities -/

theorem append_T_eq_nil_iff (l : List Char) : l ++ ['T'] = [] ↔ False := by
  simp

theorem append_T_eq_singleton_iff (l : List Char) : l ++ ['T'] = ['T'] ↔ l = [] := by
  constructor
  · intro h
    have hl := congrArg List.length h
    simp at hl
    exact hl
  · rintro rfl
    rfl

/-- Appending a final `T` leaves the digit run unchanged and lands the `T`
in the rest. -/
theorem takeDigits_appendT (s : List Char) :
    takeDigits (s ++ ['T']) = ((takeDigits s).1, (takeDigits s).2 ++ ['T']) := by
  induction s with
  | nil => rfl
  | cons c cs ih =>
    by_cases h : c.isDigit <;> simp [takeDigits, h, ih]

/-- For a non-`T` designator, appending a final `T` to a `T`-free input
changes neither the captured quantity nor the way the element consumes
input: the `T` just stays in the rest.  (The lookahead `(?=cT?$)` accepts
the new final `T`.) -/
theorem parseElement_appendT (desig : Char) (hc : desig ≠ 'T') (s : List Char)
    (hs : 'T' ∉ s) :
    parseElement desig (s ++ ['T']) =
      ((parseElement desig s).1, (parseElement desig s).2 ++ ['T']) := by
  unfold parseElement
  rw [takeDigits_appendT s]
  dsimp only
  rcases h1 : (takeDigits s).2 with _ | ⟨sep, r2⟩
  · dsimp only [List.nil_append]
    rw [if_neg (by decide), if_neg (fun hx => hc hx.1.symm)]
  · have hTr2 : 'T' ∉ r2 := fun hx =>
      hs (mem_of_takeDigits_rest (by rw [h1]; exact List.mem_cons_of_mem _ hx))
    dsimp only [List.cons_append]
    by_cases hsep : sep = ',' ∨ sep = '.'
    · rw [if_pos hsep, if_pos hsep, takeDigits_appendT r2]
      dsimp only
      rcases h2 : (takeDigits r2).2 with _ | ⟨c2, rest⟩
      · dsimp only [List.nil_append]
        rw [if_neg (fun hx => hc hx.1.symm)]
      · have hTrest : 'T' ∉ rest := fun hx => hTr2
          (mem_of_takeDigits_rest (by rw [h2]; exact List.mem_cons_of_mem _ hx))
        dsimp only [List.cons_append]
        by_cases hcond : c2 = desig ∧ (takeDigits r2).1 ≠ [] ∧ rest = []
        · obtain ⟨hc2, hd2, hrest⟩ := hcond
          subst hrest
          rw [if_pos ⟨hc2, hd2, Or.inr rfl⟩, if_pos ⟨hc2, hd2, Or.inl rfl⟩]
        · have hnot1 : ¬(c2 = desig ∧ (takeDigits r2).1 ≠ [] ∧
              (rest ++ ['T'] = [] ∨ rest ++ ['T'] = ['T'])) := by
            rintro ⟨ha, hb, hcc | hcc⟩
            · exact (append_T_eq_nil_iff rest).mp hcc
            · exact hcond ⟨ha, hb, (append_T_eq_singleton_iff rest).mp hcc⟩
          have hnot2 : ¬(c2 = desig ∧ (takeDigits r2).1 ≠ [] ∧
              (rest = [] ∨ rest = ['T'])) := by
            rintro ⟨ha, hb, hcc | hcc⟩
            · exact hcond ⟨ha, hb, hcc⟩
            · exact hTrest (by rw [hcc]; exact List.mem_singleton_self 'T')
          rw [if_neg hnot1, if_neg hnot2]
    · rw [if_neg hsep, if_neg hsep]
      by_cases hint : sep = desig ∧ (takeDigits s).1 ≠ []
      · rw [if_pos hint, if_pos hint]
      · rw [if_neg hint, if_neg hint]

/-- `parseElement_appendT` lifted to a whole designator chain. -/
theorem parseSeq_appendT : ∀ (cs : List Char), (∀ c ∈ cs, c ≠ 'T') →
    ∀ (s : List Char), 'T' ∉ s →
    parseSeq cs (s ++ ['T']) = ((parseSeq cs s).1, (parseSeq cs s).2 ++ ['T']) := by
  intro cs
  induction cs with
  | nil => intro _ s _; rfl
  | cons c cs ih =>
    intro hcs s hs
    have hc : c ≠ 'T' := hcs c (List.mem_cons_self c cs)
    have hcs2 : ∀ d ∈ cs, d ≠ 'T' := fun d hd => hcs d (List.mem_cons_of_mem c hd)
    have hrs : 'T' ∉ (parseElement c s).2 := by
      intro hx
      rcases hE : parseElement c s with ⟨n, r⟩
      rw [hE] at hx
      exact hs (parseElement_rest_mem c s hE 'T' hx)
    simp only [parseSeq, parseElement_appendT c hc s hs]
    rw [ih hcs2 (parseElement c s).2 hrs]

/-- A `T`-free body that the regular expression accepts (necessarily with
no time half) is still accepted, with the same capture groups, after a
final `T` is appended: the date half matches as before, the new `T` opens
an empty time half, and the anchors close. -/
theorem matchBody_appendT (neg : Bool) (s2 : List Char) (g : DurationMatch)
    (hs : 'T' ∉ s2) (h : matchBody neg s2 = some g) :
    matchBody neg (s2 ++ ['T']) = some g ∧ g.time = [none, none, none] := by
  have hdrw := parseSeq_appendT dateDesignators (by decide) s2 hs
  unfold matchBody at h
  split at h
  next s7 heq =>
    exact absurd (parseSeq_rest_mem dateDesignators s2 'T'
      (by rw [heq]; exact List.mem_cons_self 'T' s7)) hs
  next heq =>
    split_ifs at h with hnil
    have hg := (Option.some.inj h).symm
    subst hg
    refine ⟨?_, rfl⟩
    unfold matchBody
    rw [hdrw]
    dsimp only
    rw [hnil]
    dsimp only [List.nil_append]
    rfl

/-- C10: for every `T`-free string `w` that `isoDuration` accepts (such a
string has at least one date-half quantity and no time half), the string
`w ++ "T"` — a date half followed by a trailing `T` with nothing after it —
is also accepted and converts to the same millisecond value. -/
theorem C10_trailing_T (w : List Char) (path : Path) (q : ℚ)
    (hT : 'T' ∉ w) (h : isoDuration w path = .ok q) :
    isoDuration (w ++ ['T']) path = .ok q := by
  have hw : ∃ g, matchISODuration w = some g ∧ durationMs g = q ∧
      ¬(w = "P".data ∨ w = "PT".data ∨ w = "-P".data ∨ w = "-PT".data) := by
    unfold isoDuration at h
    split_ifs at h with hdeg
    rcases hm : matchISODuration w with _ | g
    · rw [hm] at h
      simp at h
    · rw [hm] at h
      dsimp only at h
      exact ⟨g, rfl, Except.ok.inj h, hdeg⟩
  obtain ⟨g, hm, hq, hdeg⟩ := hw
  unfold matchISODuration at hm
  split at hm
  next s2 =>
    have hs2 : 'T' ∉ s2 := fun hx => hT (by simp [hx])
    have hb := (matchBody_appendT true s2 g hs2 hm).1
    unfold isoDuration
    rw [if_neg ?hdegT]
    case hdegT =>
      rintro (h1 | h2 | h3 | h4)
      · simp at h1
      · simp at h2
      · simp at h3
      · have h5 : s2 ++ ['T'] = ['T'] := by
          simpa using h4
        have hs2nil : s2 = [] := (append_T_eq_singleton_iff s2).mp h5
        subst hs2nil
        exact hdeg (Or.inr (Or.inr (Or.inl rfl)))
    have hmT : matchISODuration (('-' :: 'P' :: s2) ++ ['T']) = some g := by
      simp only [List.cons_append]
      exact hb
    rw [hmT]
    dsimp only
    rw [hq]
  next s2 =>
    have hs2 : 'T' ∉ s2 := fun hx => hT (by simp [hx])
    have hb := (matchBody_appendT false s2 g hs2 hm).1
    unfold isoDuration
    rw [if_neg ?hdegT2]
    case hdegT2 =>
      rintro (h1 | h2 | h3 | h4)
      · simp at h1
      · have h5 : s2 ++ ['T'] = ['T'] := by
          simpa using h2
        have hs2nil : s2 = [] := (append_T_eq_singleton_iff s2).mp h5
        subst hs2nil
        exact hdeg (Or.inl rfl)
      · simp at h3
      · simp at h4
    have hmT : matchISODuration (('P' :: s2) ++ ['T']) = some g := by
      simp only [List.cons_append]
      exact hb
    rw [hmT]
    dsimp only
    rw [hq]
  next => cases hm

/-- C10 witness: `"P3Y6M2W4DT"` converts to the same value as
`"P3Y6M2W4D"`. -/
theorem C10_trailing_T_witness : isoDuration "P3Y6M2W4DT".data [] = .ok 111715200000 := by
  have h0 : isoDuration "P3Y6M2W4D".data [] = .ok 111715200000 := by
    have hm : matchISODuration "P3Y6M2W4D".data =
        some ⟨false,
          [some ⟨['3'], none⟩, some ⟨['6'], none⟩, some ⟨['2'], none⟩, some ⟨['4'], none⟩],
          [none, none, none]⟩ := rfl
    simp only [isoDuration, hm]
    rw [if_neg (by decide)]
    congr 1
    norm_num [durationMs, msFactors, parseElem, numeralValue, digitsToNat,
      digitVal_2, digitVal_3, digitVal_4, digitVal_6,
      MS_PER_YEAR, MS_PER_MONTH, MS_PER_WEEK, MS_PER_DAY, MS_PER_HOUR, MS_PER_MINUTE,
      MS_PER_SECOND]
  have heq : "P3Y6M2W4DT".data = "P3Y6M2W4D".data ++ ['T'] := rfl
  rw [heq]
  exact C10_trailing_T "P3Y6M2W4D".data [] 111715200000 (by decide) h0

end Validation
